import Mathlib

/-
Verification of the registry / file-cache / placeholder-rewriter core of
the mdbook-file-search preprocessor (src/src/main.rs), as a shallow embedding.
Rust binders named `alias` are rendered as `aliasName` (`alias` is reserved).

Conventions of the embedding:
  * Rust HashMap<String, V> is modelled as a total function String → Option V;
    insertion is pointwise functional update.
  * Rust PathBuf values are modelled as the String they were built from;
    Path::file_name is modelled by fileName below (Unix component semantics:
    split on slash, drop empty and "." components, the final component is the
    file name unless it is "..", a root, or the path is empty).
  * Filesystem state (for copy_files) is modelled as a partial map from path
    strings to a pair of last-modified timestamp (Nat) and content (String);
    fallible IO steps return Option (none = the Rust function returns Err).
  * Rust regex replace_all with the pattern r"\{\{\#find\s([\d\w]+)\}\}" is
    modelled over List Char by a leftmost, maximal-munch scanner
    (matchPlaceholder / rewriteChars).  Since the brace character is not a
    word character the regex engine's backtracking can never produce a match
    that maximal munch misses, so the scanner is faithful.  The character
    classes \s and \w are modelled by their ASCII fragments (spaceChar,
    wordChar), on which they agree exactly with the crate's Unicode classes;
    theorems that characterize the matcher exhaustively therefore carry an
    ASCII hypothesis, and all concrete inputs used below are ASCII.
-/

/-- Error enum of the preprocessor; the spec calls this error `InvalidKind`. -/
inductive FileSearchProcessorError where
  | FileTypeConversionFailed
deriving DecidableEq, Repr

/-- The `FileType` enum: rendering kind of a registered alias. -/
inductive FileType where
  | Link
  | Image
deriving DecidableEq, Repr

/-- TryFrom<&str> for FileType: "image" ↦ Image, "link" ↦ Link, anything else
is a FileTypeConversionFailed error. -/
def FileType.tryFrom (value : String) : Except FileSearchProcessorError FileType :=
  if value = "image" then Except.ok FileType.Image
  else if value = "link" then Except.ok FileType.Link
  else Except.error FileSearchProcessorError.FileTypeConversionFailed

/-- Split a character list at every slash (the components of a Unix path,
before normalization); structural counterpart of splitting on the
separator. -/
def splitSlash : List Char → List (List Char)
  | [] => [[]]
  | c :: cs =>
    if c = '/' then [] :: splitSlash cs
    else
      match splitSlash cs with
      | [] => [[c]]
      | h :: t => (c :: h) :: t

/-- Model of Rust Path::file_name on Unix-style path strings: the final normal
component, i.e. split on slash, discard empty and "." components; the result
is none when nothing remains (empty or root path) or when the last component
is "..". -/
def fileName (path : String) : Option String :=
  match ((splitSlash path.data).filter (fun comp => comp ≠ [] ∧ comp ≠ ['.'])).getLast? with
  | none => none
  | some comp => if comp = ['.', '.'] then none else some (String.mk comp)

/-- The FileCache registry: cache directory plus the two alias maps. -/
structure FileCache where
  output_dir : String
  alias_to_path : String → Option String
  alias_to_type : String → Option FileType

/-- FileCache::new (the Rust constructor always returns Ok, so the Result
wrapper is dropped): cache directory is root/src/_files, both maps empty. -/
def FileCache.new (root : String) : FileCache :=
  { output_dir := root ++ "/src/_files"
  , alias_to_path := fun _ => none
  , alias_to_type := fun _ => none }

/-- FileCache::add_file.  Mirrors the Rust statement order exactly: the path
map is updated first, then the kind string is converted (an invalid kind
returns the error with the path map already updated), then the type map is
updated.  The mutated receiver and the Result are returned as a pair. -/
def FileCache.add_file (c : FileCache) (aliasName path file_type : String) :
    FileCache × Option FileSearchProcessorError :=
  let c1 : FileCache :=
    { c with alias_to_path := fun a => if a = aliasName then some path else c.alias_to_path a }
  match FileType.tryFrom file_type with
  | Except.error e => (c1, some e)
  | Except.ok ft =>
    ({ c1 with alias_to_type := fun a => if a = aliasName then some ft else c.alias_to_type a },
     none)

/-- FileCache::get_link_path: look up the alias, take the path's file name,
and prefix ./_files/. -/
def FileCache.get_link_path (c : FileCache) (aliasName : String) : Option String :=
  (c.alias_to_path aliasName).bind fun path =>
    (fileName path).map fun filename => "./_files/" ++ filename

/-- FileCache::get_insert_text: when both the link path and the registered
kind exist, format a markdown link or image reference; otherwise none. -/
def FileCache.get_insert_text (c : FileCache) (aliasName : String) : Option String :=
  match c.get_link_path aliasName, c.alias_to_type aliasName with
  | some link, some ft =>
    match ft with
    | FileType.Link => some ("[" ++ aliasName ++ "](" ++ link ++ ")")
    | FileType.Image => some ("![Image not found](" ++ link ++ ")")
  | _, _ => none

/-- Filesystem model for copy_files: a path either holds a file with a
last-modified timestamp and a content string, or nothing. -/
structure FS where
  files : String → Option (Nat × String)

/-- Writing a file: the destination now holds the given timestamp/content. -/
def FS.write (fs : FS) (path : String) (modified : Nat) (content : String) : FS :=
  { files := fun q => if q = path then some (modified, content) else fs.files q }

/-- The body of the copy_files loop for one registered source path.  The copy
is stamped with the current time now.  Mirrors src/src/main.rs lines 85-103:
no extractable file name skips silently; if the destination exists, the copy
happens only when the destination is strictly older than the source (reading
the source metadata fails if the source is missing); otherwise the copy is
unconditional (and fails if the source is missing). -/
def copyEntry (now : Nat) (output_dir : String) (fs : FS) (path : String) : Option FS :=
  match fileName path with
  | none => some fs
  | some filename =>
    let output_file := output_dir ++ "/" ++ filename
    match fs.files path, fs.files output_file with
    | none, _ => none
    | some (source_modified, content), some (output_modified, _) =>
      if output_modified < source_modified then
        some (fs.write output_file now content)
      else
        some fs
    | some (_, content), none =>
      some (fs.write output_file now content)

/-- FileCache::copy_files over the registered paths in some iteration order,
stopping at the first IO error (the `?` operator). -/
def copy_files (now : Nat) (output_dir : String) : FS → List String → Option FS
  | fs, [] => some fs
  | fs, p :: ps => (copyEntry now output_dir fs p).bind fun fs2 => copy_files now output_dir fs2 ps

/-- ASCII fragment of the regex class \s: the six ASCII whitespace
characters.  The regex crate's \s is Unicode White_Space, which additionally
matches U+0085, U+00A0, U+1680, U+2000 to U+200A, U+2028, U+2029, U+202F,
U+205F and U+3000; on ASCII text the two classes agree exactly, so theorems
that characterize the matcher exhaustively carry an ASCII hypothesis. -/
def spaceChar (c : Char) : Bool :=
  c = ' ' || c = '\t' || c = '\n' || c = '\x0b' || c = '\x0c' || c = '\r'

/-- ASCII fragment of the regex class [\d\w]: alphanumerics and underscore
(Char.isAlphanum is ASCII-only here).  The crate's Unicode \w and \d also
match non-ASCII letters, digits and marks; on ASCII text the two classes
agree exactly, so theorems that characterize the matcher exhaustively carry
an ASCII hypothesis. -/
def wordChar (c : Char) : Bool :=
  c.isAlphanum || c = '_'

/-- Matcher for the compiled pattern r"\x7b\x7b\#find\s([\d\w]+)\x7d\x7d" at the head of
the text: two braces, the literal #find, one whitespace character, a maximal
nonempty run of word characters (the capture), two closing braces.  Returns
the captured alias and the text after the match.  Maximal munch agrees with
the regex because a closing brace is not a word character. -/
def matchPlaceholder : List Char → Option (String × List Char)
  | '\x7b' :: '\x7b' :: '#' :: 'f' :: 'i' :: 'n' :: 'd' :: s :: rest =>
    if spaceChar s then
      let w := rest.takeWhile wordChar
      if w.isEmpty then none
      else
        match rest.dropWhile wordChar with
        | '\x7d' :: '\x7d' :: r => some (String.mk w, r)
        | _ => none
    else none
  | _ => none

/-- Fuel-indexed engine for Regex::replace_all with the placeholder pattern:
scan left to right; at a match emit the replacement text resolve gives (or
the literal "unknown" on a miss, per src/src/main.rs line 185) and resume
after the matched span; otherwise keep one character and advance.  Each step
consumes at least one character, so fuel equal to the length suffices; fuel
only makes the recursion structural. -/
def rewriteFuel (resolve : String → Option String) : Nat → List Char → List Char
  | _, [] => []
  | 0, l => l
  | n + 1, c :: cs =>
    match matchPlaceholder (c :: cs) with
    | some (a, rest) => ((resolve a).getD "unknown").data ++ rewriteFuel resolve n rest
    | none => c :: rewriteFuel resolve n cs

/-- Regex::replace_all of the placeholder pattern over a character list. -/
def rewriteChars (resolve : String → Option String) (l : List Char) : List Char :=
  rewriteFuel resolve l.length l

/-- The chapter-content rewrite of FileSearch::run, on strings. -/
def rewriteStr (resolve : String → Option String) (s : String) : String :=
  String.mk (rewriteChars resolve s.data)

/-- True when some suffix of the text begins with a placeholder match. -/
def containsPlaceholder : List Char → Bool
  | [] => false
  | c :: cs => (matchPlaceholder (c :: cs)).isSome || containsPlaceholder cs

/-- The character text of the placeholder for a given alias, followed by a
continuation: two braces, #find, a space, the alias, two closing braces. -/
def placeholderChars (aliasName : String) (rest : List Char) : List Char :=
  '\x7b' :: '\x7b' :: '#' :: 'f' :: 'i' :: 'n' :: 'd' :: ' ' ::
    (aliasName.data ++ '\x7d' :: '\x7d' :: rest)

/-- One record of the preprocessor's files configuration array: each field is
present with a string value, or absent (absent also models a present value
that is not a string, since as_str yields None there too). -/
structure ConfigRecord where
  alias_field : Option String
  path_field : Option String
  type_field : Option String

/-- The configuration-loading loop of FileSearch::run (lines 157-165): a
record registers an entry only when alias, path and type are all present;
otherwise it is skipped; add_file's error propagates out of the loop. -/
def loadConfig : FileCache → List ConfigRecord → FileCache × Option FileSearchProcessorError
  | cache, [] => (cache, none)
  | cache, r :: rs =>
    match r.alias_field, r.path_field, r.type_field with
    | some a, some p, some t =>
      match cache.add_file a p t with
      | (c2, some e) => (c2, some e)
      | (c2, none) => loadConfig c2 rs
    | _, _, _ => loadConfig cache rs

mutual

/-- Model of the mdbook BookItem tree: a chapter holds a name, its markdown
content and nested sub-items; separators and part titles carry no content. -/
inductive BookItem where
  | chapter (name : String) (content : String) (subItems : BookItems)
  | separator
  | partTitle (title : String)

/-- A list of book items (a dedicated type so the tree recursion below is
structural). -/
inductive BookItems where
  | nil
  | cons (head : BookItem) (tail : BookItems)

end

mutual

/-- The closure passed to Book::for_each_mut in FileSearch::run (lines
179-188): a chapter's content is rewritten through the placeholder pattern;
every other item is returned untouched. -/
def rewriteItem (resolve : String → Option String) : BookItem → BookItem
  | BookItem.chapter name content subItems =>
    BookItem.chapter name (rewriteStr resolve content) (rewriteItems resolve subItems)
  | BookItem.separator => BookItem.separator
  | BookItem.partTitle title => BookItem.partTitle title

/-- for_each_mut over a list of items (mdbook recurses into sub-items). -/
def rewriteItems (resolve : String → Option String) : BookItems → BookItems
  | BookItems.nil => BookItems.nil
  | BookItems.cons i is => BookItems.cons (rewriteItem resolve i) (rewriteItems resolve is)

end

/-- The rewrite phase of FileSearch::run: the closure only calls
get_insert_text, which takes the cache by immutable borrow, so the embedding
threads the registry through unchanged and the resolver is the cache's
get_insert_text. -/
def FileSearch.runRewrite (cache : FileCache) (book : BookItems) : FileCache × BookItems :=
  (cache, rewriteItems (fun a => cache.get_insert_text a) book)

/-- FileSearch::supports_renderer: unconditionally true. -/
def supports_renderer (_renderer : String) : Bool :=
  true

/-- A freshly constructed registry with no entries, used in concrete
instantiations below. -/
def emptyCache : FileCache :=
  FileCache.new "book"

/-- The registry of the spec's examples: alias guide is a Link to
/external/doc.pdf and alias logo is an Image at /assets/logo.png, registered
through add_file. -/
def sampleCache : FileCache :=
  ((emptyCache.add_file "guide" "/external/doc.pdf" "link").1.add_file
    "logo" "/assets/logo.png" "image").1

/-- C10: supports_renderer returns true for every renderer name string. -/
theorem supports_renderer_always_true (renderer : String) :
    supports_renderer renderer = true := rfl

theorem matchPlaceholder_length {l r : List Char} {a : String}
    (h : matchPlaceholder l = some (a, r)) : r.length < l.length := by
  unfold matchPlaceholder at h
  split at h
  next s rest =>
    split at h
    · split at h
      next r2 heq =>
        dsimp only at h
        split at h
        · exact absurd h (by simp)
        · have h2 := congrArg List.length (List.takeWhile_append_dropWhile (p := wordChar) (l := rest))
          rw [heq] at h2
          injection h with h3
          injection h3 with h4 h5
          subst h5
          simp at h2 ⊢
          omega
      next => simp at h
    · exact absurd h (by simp)
  next => exact absurd h (by simp)

theorem takeWhile_word_append (w t : List Char) (hw : ∀ c ∈ w, wordChar c = true) :
    (w ++ '\x7d' :: t).takeWhile wordChar = w ∧
      (w ++ '\x7d' :: t).dropWhile wordChar = '\x7d' :: t := by
  induction w with
  | nil =>
    have h7 : ¬ (wordChar '\x7d' = true) := by decide
    simp [List.takeWhile_cons_of_neg, List.dropWhile_cons_of_neg, h7]
  | cons c cs ih =>
    have hc : wordChar c = true := hw c (by simp)
    have ihh := ih (fun d hd => hw d (by simp [hd]))
    simp [List.takeWhile_cons_of_pos, List.dropWhile_cons_of_pos, hc, ihh.1, ihh.2]

theorem matchPlaceholder_iff (l : List Char) (a : String) (r : List Char) :
    matchPlaceholder l = some (a, r) ↔
      ∃ s w, spaceChar s = true ∧ w ≠ [] ∧ (∀ c ∈ w, wordChar c = true) ∧
        a = String.mk w ∧
        l = '\x7b' :: '\x7b' :: '#' :: 'f' :: 'i' :: 'n' :: 'd' :: s ::
          (w ++ '\x7d' :: '\x7d' :: r) := by
  constructor
  · intro h
    unfold matchPlaceholder at h
    split at h
    next s rest =>
      split at h
      next hs =>
        split at h
        next r2 heq =>
          dsimp only at h
          split at h
          next hemp => exact absurd h (by simp)
          next hemp =>
            injection h with h3
            injection h3 with h4 h5
            subst h5
            refine ⟨s, rest.takeWhile wordChar, hs, ?_, ?_, h4.symm, ?_⟩
            · simpa using hemp
            · intro c hc
              exact List.mem_takeWhile_imp hc
            · have hrest : rest = List.takeWhile wordChar rest ++ '\x7d' :: '\x7d' :: r2 := by
                rw [← heq]
                exact (List.takeWhile_append_dropWhile (p := wordChar) (l := rest)).symm
              conv_lhs => rw [hrest]
        next => simp at h
      next hs => exact absurd h (by simp)
    next => exact absurd h (by simp)
  · rintro ⟨s, w, hs, hw0, hw, ha, rfl⟩
    have h1 := takeWhile_word_append w ('\x7d' :: r) hw
    have hemp : w.isEmpty = false := by simpa using hw0
    simp only [matchPlaceholder]
    rw [if_pos hs]
    rw [h1.1, h1.2, hemp]
    simp [ha]

theorem rewriteFuel_congr (resolve : String → Option String) :
    ∀ n m l, List.length l ≤ n → List.length l ≤ m →
      rewriteFuel resolve n l = rewriteFuel resolve m l := by
  intro n
  induction n with
  | zero =>
    intro m l hn _
    have hl : l = [] := List.length_eq_zero.mp (Nat.le_zero.mp hn)
    subst hl
    cases m <;> rfl
  | succ n ih =>
    intro m l hn hm
    cases l with
    | nil => cases m <;> rfl
    | cons c cs =>
      cases m with
      | zero => simp at hm
      | succ m =>
        simp only [rewriteFuel]
        cases hmp : matchPlaceholder (c :: cs) with
        | none =>
          dsimp only
          have h1 : cs.length ≤ n := by simp at hn; omega
          have h2 : cs.length ≤ m := by simp at hm; omega
          rw [ih m cs h1 h2]
        | some p =>
          obtain ⟨a, rest⟩ := p
          have hlt := matchPlaceholder_length hmp
          dsimp only
          have h1 : rest.length ≤ n := by simp at hlt hn; omega
          have h2 : rest.length ≤ m := by simp at hlt hm; omega
          rw [ih m rest h1 h2]

theorem rewriteChars_cons_match {resolve : String → Option String} {a : String}
    {rest : List Char} (c : Char) (cs : List Char)
    (h : matchPlaceholder (c :: cs) = some (a, rest)) :
    rewriteChars resolve (c :: cs) =
      ((resolve a).getD "unknown").data ++ rewriteChars resolve rest := by
  have hlt := matchPlaceholder_length h
  unfold rewriteChars
  simp only [List.length_cons, rewriteFuel, h]
  rw [rewriteFuel_congr resolve cs.length rest.length rest (by simp at hlt; omega) le_rfl]

theorem rewriteChars_cons_none {resolve : String → Option String}
    (c : Char) (cs : List Char) (h : matchPlaceholder (c :: cs) = none) :
    rewriteChars resolve (c :: cs) = c :: rewriteChars resolve cs := by
  unfold rewriteChars
  simp only [List.length_cons, rewriteFuel, h]

theorem rewriteChars_id_of_no_placeholder {resolve : String → Option String}
    {l : List Char} (h : containsPlaceholder l = false) :
    rewriteChars resolve l = l := by
  induction l with
  | nil => rfl
  | cons c cs ih =>
    simp only [containsPlaceholder, Bool.or_eq_false_iff] at h
    have h1 : matchPlaceholder (c :: cs) = none := by
      rcases hmp : matchPlaceholder (c :: cs) with _ | p
      · rfl
      · rw [hmp] at h
        simp at h
    rw [rewriteChars_cons_none c cs h1, ih h.2]

theorem get_insert_text_none_of_path_none {c : FileCache} {aliasName : String}
    (h : c.alias_to_path aliasName = none) : c.get_insert_text aliasName = none := by
  simp [FileCache.get_insert_text, FileCache.get_link_path, h]

theorem rewriteChars_match {resolve : String → Option String} {a : String}
    {rest l : List Char} (h : matchPlaceholder l = some (a, rest)) :
    rewriteChars resolve l = ((resolve a).getD "unknown").data ++ rewriteChars resolve rest := by
  obtain ⟨s, w, _, _, _, _, rfl⟩ := (matchPlaceholder_iff l a rest).mp h
  exact rewriteChars_cons_match _ _ h

theorem append_fold_link (t : String) :
    "](" ++ ("./_files/" ++ t) = "](./_files/" ++ t := by
  rw [← String.append_assoc]
  rfl

theorem append_fold_image (t : String) :
    "![Image not found](" ++ ("./_files/" ++ t) = "![Image not found](./_files/" ++ t := by
  rw [← String.append_assoc]
  rfl

theorem loadConfig_path_none (a : String) :
    ∀ (records : List ConfigRecord) (cache : FileCache),
      cache.alias_to_path a = none →
      (∀ q ∈ records, q.alias_field = none ∨ q.path_field = none ∨ q.type_field = none ∨
        q.alias_field ≠ some a) →
      (loadConfig cache records).1.alias_to_path a = none := by
  intro records
  induction records with
  | nil => intro cache hc _; exact hc
  | cons q qs ih =>
    intro cache hc hrec
    obtain ⟨oa, op, ot⟩ := q
    have hrecTail : ∀ q ∈ qs, q.alias_field = none ∨ q.path_field = none ∨
        q.type_field = none ∨ q.alias_field ≠ some a :=
      fun q hq => hrec q (List.mem_cons_of_mem _ hq)
    cases oa with
    | none => exact ih cache hc hrecTail
    | some a2 =>
      cases op with
      | none => exact ih cache hc hrecTail
      | some p =>
        cases ot with
        | none => exact ih cache hc hrecTail
        | some t =>
          have h4 := hrec ⟨some a2, some p, some t⟩ (List.mem_cons_self _ _)
          simp at h4
          have h5 : ¬ a = a2 := fun he => h4 he.symm
          rcases htf : FileType.tryFrom t with e | ft
          · simp only [loadConfig, FileCache.add_file, htf]
            simp [h5, hc]
          · simp only [loadConfig, FileCache.add_file, htf]
            refine ih _ ?_ hrecTail
            simp [h5, hc]

/-- C1 as stated is false: registering the alias a at path /ext/f.txt with
the invalid kind bogus does fail with the conversion error, yet the path
mapping for a has been inserted (it was none before the call), so the
registry is not left with both mappings unchanged. -/
theorem add_file_invalid_kind_path_inserted :
    (emptyCache.add_file "a" "/ext/f.txt" "bogus").2 =
        some FileSearchProcessorError.FileTypeConversionFailed ∧
      (emptyCache.add_file "a" "/ext/f.txt" "bogus").1.alias_to_path "a" = some "/ext/f.txt" ∧
      emptyCache.alias_to_path "a" = none := by
  refine ⟨rfl, ?_, rfl⟩
  simp [emptyCache, FileCache.new, FileCache.add_file, FileType.tryFrom]

/-- C1 amended: for every registry state, alias, source path and kind string
outside the closed set of link and image, add_file fails with the
FileTypeConversionFailed (InvalidKind) error and the kind mapping is left
unchanged; the path mapping, however, has already been updated to map the
alias to the given path before the failure. -/
theorem add_file_invalid_kind (c : FileCache) (aliasName path kind : String)
    (h1 : kind ≠ "link") (h2 : kind ≠ "image") :
    (c.add_file aliasName path kind).2 =
        some FileSearchProcessorError.FileTypeConversionFailed ∧
      (c.add_file aliasName path kind).1.alias_to_type = c.alias_to_type ∧
      (c.add_file aliasName path kind).1.alias_to_path aliasName = some path := by
  simp [FileCache.add_file, FileType.tryFrom, h1, h2]

/-- Witness for add_file_invalid_kind at the empty registry with kind
bogus. -/
theorem add_file_invalid_kind_witness :
    ("bogus" ≠ "link") ∧ ("bogus" ≠ "image") ∧
      ((emptyCache.add_file "a" "/ext/f.txt" "bogus").2 =
          some FileSearchProcessorError.FileTypeConversionFailed ∧
        (emptyCache.add_file "a" "/ext/f.txt" "bogus").1.alias_to_type =
          emptyCache.alias_to_type ∧
        (emptyCache.add_file "a" "/ext/f.txt" "bogus").1.alias_to_path "a" =
          some "/ext/f.txt") :=
  ⟨by decide, by decide,
    add_file_invalid_kind emptyCache "a" "/ext/f.txt" "bogus" (by decide) (by decide)⟩

/-- C2: for an alias registered at a source path whose final component is f,
get_insert_text renders a markdown link for kind Link and the image fallback
markup for kind Image, both pointing at ./_files/f. -/
theorem get_insert_text_formats (c : FileCache) (aliasName path f : String) (ft : FileType)
    (h1 : c.alias_to_path aliasName = some path)
    (h2 : fileName path = some f)
    (h3 : c.alias_to_type aliasName = some ft) :
    c.get_insert_text aliasName = some (match ft with
      | FileType.Link => "[" ++ aliasName ++ "](./_files/" ++ f ++ ")"
      | FileType.Image => "![Image not found](./_files/" ++ f ++ ")") := by
  have hlink : c.get_link_path aliasName = some ("./_files/" ++ f) := by
    simp [FileCache.get_link_path, h1, h2]
  cases ft with
  | Link =>
    simp only [FileCache.get_insert_text, hlink, h3, String.append_assoc,
      append_fold_link]
  | Image =>
    simp only [FileCache.get_insert_text, hlink, h3, String.append_assoc,
      append_fold_image]

/-- Witness for get_insert_text_formats: the spec's two examples, checked on
sampleCache for both kinds. -/
theorem get_insert_text_formats_witness :
    (sampleCache.alias_to_path "guide" = some "/external/doc.pdf" ∧
      fileName "/external/doc.pdf" = some "doc.pdf" ∧
      sampleCache.alias_to_type "guide" = some FileType.Link ∧
      sampleCache.get_insert_text "guide" = some "[guide](./_files/doc.pdf)") ∧
    (sampleCache.alias_to_path "logo" = some "/assets/logo.png" ∧
      fileName "/assets/logo.png" = some "logo.png" ∧
      sampleCache.alias_to_type "logo" = some FileType.Image ∧
      sampleCache.get_insert_text "logo" = some "![Image not found](./_files/logo.png)") :=
  ⟨⟨by decide, by decide, by decide, by
      simpa using
        get_insert_text_formats sampleCache "guide" "/external/doc.pdf" "doc.pdf"
          FileType.Link (by decide) (by decide) (by decide)⟩,
    ⟨by decide, by decide, by decide, by
      simpa using
        get_insert_text_formats sampleCache "logo" "/assets/logo.png" "logo.png"
          FileType.Image (by decide) (by decide) (by decide)⟩⟩

/-- C3: for an alias absent from the registry (no path mapping),
get_insert_text returns none, and the rewrite replaces a placeholder that
references it with exactly the literal text unknown, continuing with the
rest of the document; the rewrite is a total function, so the pass cannot
fail on an unregistered alias. -/
theorem unregistered_alias_rewrites_to_unknown (c : FileCache) (aliasName : String)
    (rest : List Char)
    (h : c.alias_to_path aliasName = none)
    (h1 : aliasName.data ≠ [])
    (h2 : ∀ ch ∈ aliasName.data, wordChar ch = true) :
    c.get_insert_text aliasName = none ∧
      rewriteChars (fun a => c.get_insert_text a) (placeholderChars aliasName rest) =
        "unknown".data ++ rewriteChars (fun a => c.get_insert_text a) rest := by
  have hres : c.get_insert_text aliasName = none := get_insert_text_none_of_path_none h
  refine ⟨hres, ?_⟩
  have hmatch : matchPlaceholder (placeholderChars aliasName rest) = some (aliasName, rest) := by
    rw [matchPlaceholder_iff]
    exact ⟨' ', aliasName.data, by decide, h1, h2, rfl, rfl⟩
  rw [rewriteChars_match hmatch]
  simp [hres]

/-- Witness for unregistered_alias_rewrites_to_unknown: the alias guide on
the empty registry, with an empty continuation. -/
theorem unregistered_alias_rewrites_to_unknown_witness :
    emptyCache.alias_to_path "guide" = none ∧
      (emptyCache.get_insert_text "guide" = none ∧
        rewriteChars (fun a => emptyCache.get_insert_text a) (placeholderChars "guide" []) =
          "unknown".data ++ rewriteChars (fun a => emptyCache.get_insert_text a) []) :=
  ⟨rfl, unregistered_alias_rewrites_to_unknown emptyCache "guide" [] rfl
    (by decide) (by decide)⟩

/-- C7: an entry whose source path has no extractable file name (here path
is arbitrary with fileName path = none, e.g. the root path) is skipped
silently by the copy loop, and both get_link_path and get_insert_text return
none for its alias. -/
theorem no_file_name_skipped_and_unresolved (now : Nat) (dir : String) (fs : FS)
    (c : FileCache) (aliasName path : String)
    (h : fileName path = none)
    (h2 : c.alias_to_path aliasName = some path) :
    copyEntry now dir fs path = some fs ∧
      c.get_link_path aliasName = none ∧ c.get_insert_text aliasName = none := by
  have hl : c.get_link_path aliasName = none := by
    simp [FileCache.get_link_path, h2, h]
  refine ⟨by simp [copyEntry, h], hl, ?_⟩
  simp [FileCache.get_insert_text, hl]

/-- Witness for no_file_name_skipped_and_unresolved: the root path "/" on a
registry that maps the alias root to it, over an empty filesystem. -/
theorem no_file_name_skipped_and_unresolved_witness :
    fileName "/" = none ∧
      (copyEntry 3 "book/src/_files" (FS.mk fun _ => none) "/" =
          some (FS.mk fun _ => none) ∧
        FileCache.get_link_path
          { output_dir := "book/src/_files"
          , alias_to_path := fun a => if a = "root" then some "/" else none
          , alias_to_type := fun _ => none } "root" = none ∧
        FileCache.get_insert_text
          { output_dir := "book/src/_files"
          , alias_to_path := fun a => if a = "root" then some "/" else none
          , alias_to_type := fun _ => none } "root" = none) :=
  ⟨rfl, no_file_name_skipped_and_unresolved 3 "book/src/_files" (FS.mk fun _ => none)
    { output_dir := "book/src/_files"
    , alias_to_path := fun a => if a = "root" then some "/" else none
    , alias_to_type := fun _ => none } "root" "/" rfl (by simp)⟩

/-- C4: for a registered entry with an extractable destination file name and
an existing source, the copy step copies the source into the cache directory
exactly when no file exists at the destination or the destination's
last-modified time is strictly earlier than the source's; otherwise the
filesystem (in particular the destination file) is left unchanged. -/
theorem copy_files_incremental (now : Nat) (dir : String) (fs : FS)
    (path f : String) (sm : Nat) (content : String)
    (hf : fileName path = some f)
    (hs : fs.files path = some (sm, content)) :
    (fs.files (dir ++ "/" ++ f) = none →
      copyEntry now dir fs path = some (fs.write (dir ++ "/" ++ f) now content)) ∧
    (∀ om oc, fs.files (dir ++ "/" ++ f) = some (om, oc) → om < sm →
      copyEntry now dir fs path = some (fs.write (dir ++ "/" ++ f) now content)) ∧
    (∀ om oc, fs.files (dir ++ "/" ++ f) = some (om, oc) → ¬ om < sm →
      copyEntry now dir fs path = some fs) := by
  refine ⟨?_, ?_, ?_⟩
  · intro hout
    simp [copyEntry, hf, hs, hout]
  · intro om oc hout hlt
    simp [copyEntry, hf, hs, hout, hlt]
  · intro om oc hout hlt
    simp [copyEntry, hf, hs, hout, hlt]

/-- Witness for copy_files_incremental: a destination from an earlier run
(time 3) that is strictly older than the source (time 5) is overwritten at
time 9 with the source's content. -/
theorem copy_files_incremental_witness :
    copyEntry 9 "d"
        (FS.mk fun p => if p = "/a/b.txt" then some (5, "hello")
          else if p = "d/b.txt" then some (3, "old") else none) "/a/b.txt" =
      some ((FS.mk fun p => if p = "/a/b.txt" then some (5, "hello")
          else if p = "d/b.txt" then some (3, "old") else none).write
        ("d" ++ "/" ++ "b.txt") 9 "hello") :=
  (copy_files_incremental 9 "d"
    (FS.mk fun p => if p = "/a/b.txt" then some (5, "hello")
      else if p = "d/b.txt" then some (3, "old") else none)
    "/a/b.txt" "b.txt" 5 "hello" (by decide) (by simp)).2.1 3 "old" (by simp) (by decide)

/-- C5 as stated is false: with the empty registry, one rewrite of the
document consisting of a placeholder whose alias position is itself a
placeholder turns the inner placeholder into the text unknown, which welds
with the surrounding text into a new placeholder, so a second rewrite
changes the text again. -/
theorem rewrite_not_idempotent :
    rewriteStr (fun a => emptyCache.get_insert_text a)
        (rewriteStr (fun a => emptyCache.get_insert_text a)
          "\x7b\x7b#find \x7b\x7b#find a\x7d\x7d\x7d\x7d") ≠
      rewriteStr (fun a => emptyCache.get_insert_text a)
        "\x7b\x7b#find \x7b\x7b#find a\x7d\x7d\x7d\x7d" := by
  decide

/-- C5 amended: a second rewrite pass is a no-op on every content string
whose first rewrite output contains no text matching the placeholder
pattern (which holds for ordinary documents, where replacement text cannot
weld with adjacent text into a new placeholder). -/
theorem rewrite_idempotent_on_clean_output (resolve : String → Option String)
    (l : List Char)
    (h : containsPlaceholder (rewriteChars resolve l) = false) :
    rewriteChars resolve (rewriteChars resolve l) = rewriteChars resolve l :=
  rewriteChars_id_of_no_placeholder h

/-- Witness for rewrite_idempotent_on_clean_output on the spec's example
document, rewritten against the empty registry. -/
theorem rewrite_idempotent_on_clean_output_witness :
    containsPlaceholder (rewriteChars (fun a => emptyCache.get_insert_text a)
        "See \x7b\x7b#find guide\x7d\x7d for details.".data) = false ∧
      rewriteChars (fun a => emptyCache.get_insert_text a)
          (rewriteChars (fun a => emptyCache.get_insert_text a)
            "See \x7b\x7b#find guide\x7d\x7d for details.".data) =
        rewriteChars (fun a => emptyCache.get_insert_text a)
          "See \x7b\x7b#find guide\x7d\x7d for details.".data :=
  ⟨by decide, rewrite_idempotent_on_clean_output (fun a => emptyCache.get_insert_text a)
    "See \x7b\x7b#find guide\x7d\x7d for details.".data (by decide)⟩

/-- C6 as stated is false: the pattern accepts any single whitespace
character after the literal #find, not only a space.  The text whose eighth
character is a tab is treated as a placeholder (it matches, and the rewrite
against the empty registry replaces it with unknown). -/
theorem placeholder_tab_matches :
    matchPlaceholder "\x7b\x7b#find\tg\x7d\x7d".data = some ("g", []) ∧
      "\x7b\x7b#find\tg\x7d\x7d".data =
        ['\x7b', '\x7b', '#', 'f', 'i', 'n', 'd', '\t', 'g', '\x7d', '\x7d'] ∧
      ('\t' : Char) ≠ ' ' ∧
      rewriteStr (fun a => emptyCache.get_insert_text a) "\x7b\x7b#find\tg\x7d\x7d" =
        "unknown" := by
  refine ⟨by decide, by decide, by decide, by decide⟩

/-- C6 amended: on ASCII text (where the ASCII class fragments spaceChar and
wordChar agree exactly with the regex crate's Unicode \s and [\d\w]), the
matcher accepts exactly the spans of the form: literal double brace and
#find, one whitespace character (space, tab, line feed, vertical tab, form
feed or carriage return - not only the space character), a captured nonempty
run of alphanumeric/underscore characters, then two closing braces; no other
ASCII text span matches.  Outside ASCII the program's classes accept
additional Unicode whitespace and word characters, which this model does
not cover. -/
theorem placeholder_grammar_characterization (l : List Char) (a : String) (r : List Char)
    (hascii : ∀ c ∈ l, c.toNat ≤ 127) :
    matchPlaceholder l = some (a, r) ↔
      ∃ s w, spaceChar s = true ∧ w ≠ [] ∧ (∀ c ∈ w, wordChar c = true) ∧
        a = String.mk w ∧
        l = '\x7b' :: '\x7b' :: '#' :: 'f' :: 'i' :: 'n' :: 'd' :: s ::
          (w ++ '\x7d' :: '\x7d' :: r) :=
  matchPlaceholder_iff l a r

/-- Witness for placeholder_grammar_characterization on the ASCII document
consisting of a single placeholder for the alias guide. -/
theorem placeholder_grammar_characterization_witness :
    (∀ c ∈ "\x7b\x7b#find guide\x7d\x7d".data, c.toNat ≤ 127) ∧
      (matchPlaceholder "\x7b\x7b#find guide\x7d\x7d".data = some ("guide", []) ↔
        ∃ s w, spaceChar s = true ∧ w ≠ [] ∧ (∀ c ∈ w, wordChar c = true) ∧
          "guide" = String.mk w ∧
          "\x7b\x7b#find guide\x7d\x7d".data =
            '\x7b' :: '\x7b' :: '#' :: 'f' :: 'i' :: 'n' :: 'd' :: s ::
              (w ++ '\x7d' :: '\x7d' :: [])) :=
  ⟨by decide, placeholder_grammar_characterization
    "\x7b\x7b#find guide\x7d\x7d".data "guide" [] (by decide)⟩

/-- C8: a configuration record missing the path field is skipped (the load
result is the same as without the record), and an alias only mentioned by
records that are missing a field registers nothing: its path lookup and its
resolution both yield none after loading. -/
theorem incomplete_record_skipped (cache : FileCache) (r : ConfigRecord)
    (rs records : List ConfigRecord) (a : String)
    (hr : r.path_field = none)
    (hc : cache.alias_to_path a = none)
    (hrec : ∀ q ∈ records, q.alias_field = none ∨ q.path_field = none ∨
      q.type_field = none ∨ q.alias_field ≠ some a) :
    loadConfig cache (r :: rs) = loadConfig cache rs ∧
      (loadConfig cache records).1.alias_to_path a = none ∧
      (loadConfig cache records).1.get_insert_text a = none := by
  have hskip : loadConfig cache (r :: rs) = loadConfig cache rs := by
    obtain ⟨oa, op, ot⟩ := r
    have h2 : op = none := hr
    subst h2
    cases oa <;> cases ot <;> rfl
  have hpath := loadConfig_path_none a records cache hc hrec
  exact ⟨hskip, hpath, get_insert_text_none_of_path_none hpath⟩

/-- Witness for incomplete_record_skipped: one record with alias x, a type,
and no path, loaded into the empty registry. -/
theorem incomplete_record_skipped_witness :
    loadConfig emptyCache [⟨some "x", none, some "link"⟩] = loadConfig emptyCache [] ∧
      (loadConfig emptyCache [⟨some "x", none, some "link"⟩]).1.alias_to_path "x" = none ∧
      (loadConfig emptyCache [⟨some "x", none, some "link"⟩]).1.get_insert_text "x" = none :=
  incomplete_record_skipped emptyCache ⟨some "x", none, some "link"⟩ []
    [⟨some "x", none, some "link"⟩] "x" rfl rfl (by decide)

/-- C9: the rewrite pass threads the registry through unchanged (the closure
only calls get_insert_text, an immutable borrow), leaves separators and part
titles exactly as they are, and for a chapter changes only the content
field: the name is kept and the sub-items are rewritten by the same
traversal. -/
theorem rewrite_only_chapter_content (cache : FileCache) (book : BookItems) :
    (FileSearch.runRewrite cache book).1 = cache ∧
      rewriteItem (fun a => cache.get_insert_text a) BookItem.separator =
        BookItem.separator ∧
      (∀ title, rewriteItem (fun a => cache.get_insert_text a) (BookItem.partTitle title) =
        BookItem.partTitle title) ∧
      (∀ name content subItems,
        rewriteItem (fun a => cache.get_insert_text a)
            (BookItem.chapter name content subItems) =
          BookItem.chapter name (rewriteStr (fun a => cache.get_insert_text a) content)
            (rewriteItems (fun a => cache.get_insert_text a) subItems)) :=
  ⟨rfl, rfl, fun _ => rfl, fun _ _ _ => rfl⟩
